import Mathlib

/-!
Verification of the StakeFlow indexing core against its implementation
(`src/backend/src/services/indexer.py` and
`src/backend/src/services/blockchain.py`).

The persistence layer's ORM model classes (`Pool`, `Stake`, `StakingEvent`,
`IndexerState`) are imported by the indexer but are not present in the
source tree, so their schema is modelled from the spec (section 3): all
entities are partitioned by chain, so we model one chain's state and drop
the constant `chain` column; `Stake` and `StakingEvent` reference `Pool` by
its on-chain pool id; amounts are decimal-string-encoded arbitrary-precision
integers, modelled as `Int` (the encoding `str`/`int` round-trips);
timestamps are seconds, modelled as `Nat`.

All operational logic (event handlers, batch indexing, the poll loop) is
translated from the Python source.
-/

namespace StakeFlow

/-- A block header; only the timestamp is consumed by the indexer
(`_process_event` reads `block.timestamp`). -/
structure Block where
  timestamp : Nat
  deriving Repr, DecidableEq

/-- Modelled from the spec: one on-chain staking pool's mirror row
(spec section 3, attributes as written to in `IndexerService.sync_pools`). -/
structure PoolRow where
  staking_token : String
  reward_token : String
  reward_rate : Int
  lock_duration : Nat
  deposit_fee : Nat
  withdraw_fee : Nat
  is_active : Bool
  deriving Repr, DecidableEq

/-- Modelled from the spec: the mutable ledger row for one (pool, user)
pair within a chain (spec section 3, fields as written in the
`_handle_*` methods of `IndexerService`). -/
structure StakeRow where
  staked_amount : Int
  pending_rewards : Int
  last_stake_time : Nat
  unlock_time : Nat
  is_active : Bool
  deriving Repr, DecidableEq

/-- Modelled from the spec: one immutable event-log row, fields as
constructed in `IndexerService._process_event`. -/
structure StakingEventRow where
  event_type : String
  tx_hash : String
  block_number : Nat
  log_index : Nat
  pool_id : Nat
  user_address : String
  amount : Option Int
  reward_amount : Option Int
  timestamp : Nat
  deriving Repr, DecidableEq

/-- A decoded log as returned by web3 (`EventData`): the `event` name,
position fields, and the decoded `args` (flattened here).  `amount` and
`rewardAmount` are optional because not every event kind carries them
(`RewardClaimed` has no `amount`; `Staked` has no `rewardAmount`). -/
structure RawEvent where
  event : String
  transactionHash : String
  blockNumber : Nat
  logIndex : Nat
  poolId : Nat
  user : String
  amount : Option Int
  rewardAmount : Option Int
  deriving Repr, DecidableEq

/-- The default lock used by `_handle_stake` when the pool row is absent:
`timedelta(days=7)`, in seconds. -/
def default_lock_seconds : Nat := 7 * 24 * 60 * 60

/-- `IndexerService._handle_stake`, acting on the (possibly absent) stake
row for the event's (pool, user) key.  `pool` is the looked-up pool row:
its `lock_duration` is used when present, and a missing pool row also
means no `Stake` row is created for a first-time staker (the code only
creates the row when the pool reference query returns an id). -/
def handle_stake (pool : Option PoolRow) (stake : Option StakeRow)
    (amount : Int) (timestamp : Nat) : Option StakeRow :=
  let lock_duration := match pool with
    | some p => p.lock_duration
    | none => default_lock_seconds
  match stake with
  | some s =>
      some { s with
        staked_amount := s.staked_amount + amount
        last_stake_time := timestamp
        unlock_time := timestamp + lock_duration
        is_active := true }
  | none =>
      match pool with
      | some _ =>
          some { staked_amount := amount
                 pending_rewards := 0
                 last_stake_time := timestamp
                 unlock_time := timestamp + lock_duration
                 is_active := true }
      | none => none

/-- `IndexerService._handle_withdraw`: saturating decrement; the
`timestamp` argument is accepted but unused, as in the source. -/
def handle_withdraw (stake : Option StakeRow) (amount : Int)
    (_timestamp : Nat) : Option StakeRow :=
  match stake with
  | none => none
  | some s =>
      let new_amount := s.staked_amount - amount
      if new_amount ≤ 0 then
        some { s with staked_amount := 0, pending_rewards := 0, is_active := false }
      else
        some { s with staked_amount := new_amount, pending_rewards := 0 }

/-- `IndexerService._handle_emergency_withdraw`: zero the position; the
`amount` argument is accepted but unused, as in the source. -/
def handle_emergency_withdraw (stake : Option StakeRow) (_amount : Int) :
    Option StakeRow :=
  match stake with
  | none => none
  | some s =>
      some { s with staked_amount := 0, pending_rewards := 0, is_active := false }

/-- `IndexerService._handle_reward_claimed`: reset pending rewards. -/
def handle_reward_claimed (stake : Option StakeRow) : Option StakeRow :=
  match stake with
  | none => none
  | some s => some { s with pending_rewards := 0 }

/-- The staked amount recorded by a possibly-absent stake row (an absent
row holds nothing). -/
def stakedAmountOf : Option StakeRow → Int
  | none => 0
  | some s => s.staked_amount

/-! ## Chain Client (`BlockchainService`)

The RPC surface is abstracted as a fetch oracle
`fetch : String → Except Unit (List RawEvent)` giving, for one event kind,
either the decoded logs of a closed block range or a decode/call failure.
`get_events` and `get_all_events` are translated from
`src/backend/src/services/blockchain.py`.  `get_all_events` additionally
returns the list of per-kind fetch invocations it performed, so that
"each kind is fetched exactly once, with no per-kind retry" is a provable
property of the definition rather than an assertion. -/

/-- The four event kinds unioned by `get_all_events`, in source order. -/
def event_names : List String :=
  ["Staked", "Withdrawn", "RewardClaimed", "EmergencyWithdrawn"]

/-- `BlockchainService.get_events`: fetch one kind's logs for the range;
any failure is caught and degraded to the empty list (the optional
argument filters are not used by the indexing path and are omitted). -/
def get_events (fetch : String → Except Unit (List RawEvent))
    (event_name : String) : List RawEvent :=
  match fetch event_name with
  | Except.ok logs => logs
  | Except.error _ => []

/-- The sort key used by `get_all_events`:
`key=lambda x: (x["blockNumber"], x["logIndex"])`, compared
lexicographically as Python compares tuples. -/
def eventKeyLE (a b : RawEvent) : Bool :=
  decide (a.blockNumber < b.blockNumber ∨
    (a.blockNumber = b.blockNumber ∧ a.logIndex ≤ b.logIndex))

/-- `BlockchainService.get_all_events`: union the four kinds (each fetched
exactly once, failures already degraded to `[]` inside `get_events`), then
sort ascending by `(block_number, log_index)`.  The second component is
the trace of per-kind fetch calls made. -/
def get_all_events (fetch : String → Except Unit (List RawEvent)) :
    List RawEvent × List String :=
  let step := fun (acc : List RawEvent × List String) (n : String) =>
    (acc.1 ++ get_events fetch n, acc.2 ++ [n])
  let gathered := event_names.foldl step ([], [])
  (gathered.1.mergeSort eventKeyLE, gathered.2)

/-! ## Persistent store and transactional session

One chain's slice of the four tables.  Stake rows are keyed by
(on-chain pool id, lowercased user address); pools by on-chain pool id.
`IndexerState` reduces to the optional cursor row (the `is_syncing` flag
is written but never read, dead per the spec's own note).

A `Session` is the unit-of-work view SQLAlchemy gives the indexer: reads
and writes act on `pending`; `commit` publishes `pending`, `rollback`
discards it back to `committed`. -/

/-- Modelled from the spec: one chain's tables (`StakingEvent`, `Stake`,
`Pool`, `IndexerState`), keyed as in section 3. -/
structure DB where
  events : List StakingEventRow
  stakes : List ((Nat × String) × StakeRow)
  pools : List (Nat × PoolRow)
  state : Option Nat
  deriving Repr, DecidableEq

/-- Look up the stake row for a (pool id, user) key. -/
def lookupStake (stakes : List ((Nat × String) × StakeRow))
    (k : Nat × String) : Option StakeRow :=
  match stakes with
  | [] => none
  | (k₀, v₀) :: rest => if k = k₀ then some v₀ else lookupStake rest k

/-- Replace the row at a key in place, or append it when absent (an ORM
update mutates the selected row; an `add` appends a new one). -/
def upsertStake (stakes : List ((Nat × String) × StakeRow))
    (k : Nat × String) (v : StakeRow) : List ((Nat × String) × StakeRow) :=
  match stakes with
  | [] => [(k, v)]
  | (k₀, v₀) :: rest =>
      if k = k₀ then (k₀, v) :: rest else (k₀, v₀) :: upsertStake rest k v

/-- Look up a pool row by on-chain pool id. -/
def lookupPool (pools : List (Nat × PoolRow)) (pid : Nat) : Option PoolRow :=
  match pools with
  | [] => none
  | (p₀, v₀) :: rest => if pid = p₀ then some v₀ else lookupPool rest pid

/-- Replace the pool row at an id in place, or append it when absent. -/
def upsertPool (pools : List (Nat × PoolRow)) (pid : Nat) (v : PoolRow) :
    List (Nat × PoolRow) :=
  match pools with
  | [] => [(pid, v)]
  | (p₀, v₀) :: rest =>
      if pid = p₀ then (p₀, v) :: rest else (p₀, v₀) :: upsertPool rest pid v

/-- A database session: the committed store plus the in-transaction view. -/
structure Session where
  committed : DB
  pending : DB
  deriving Repr, DecidableEq

/-- `db.commit()`: publish the pending work. -/
def Session.commit (s : Session) : Session := ⟨s.pending, s.pending⟩

/-- `db.rollback()`: discard the pending work. -/
def Session.rollback (s : Session) : Session := ⟨s.committed, s.committed⟩

/-! ## Event processing (`IndexerService._process_event`) -/

/-- The `StakingEvent` row `_process_event` constructs for a raw event
once its timestamp has been resolved. -/
def mk_staking_event (e : RawEvent) (timestamp : Nat) : StakingEventRow :=
  { event_type := e.event
    tx_hash := e.transactionHash
    block_number := e.blockNumber
    log_index := e.logIndex
    pool_id := e.poolId
    user_address := e.user.toLower
    amount := e.amount
    reward_amount := e.rewardAmount
    timestamp := timestamp }

/-- The timestamp `_process_event` resolves for an event: the block's
chain timestamp, or the current wall-clock time (`now`) when the block
fetch raises. -/
def resolve_timestamp (getBlock : Nat → Except Unit Block) (now : Nat)
    (blockNumber : Nat) : Nat :=
  match getBlock blockNumber with
  | Except.ok b => b.timestamp
  | Except.error _ => now

/-- The ledger mutation dispatched on the event name.  Decoded events of
the three amount-carrying kinds always hold `amount` (it is a non-indexed
ABI field), so the access `args.amount` is modelled as `getD 0`; an
unrecognised event name mutates nothing, as in the source. -/
def dispatch_event (db : DB) (e : RawEvent) (timestamp : Nat) : DB :=
  let key := (e.poolId, e.user.toLower)
  let pool := lookupPool db.pools e.poolId
  let stake := lookupStake db.stakes key
  if e.event = "Staked" then
    match handle_stake pool stake (e.amount.getD 0) timestamp with
    | some row => { db with stakes := upsertStake db.stakes key row }
    | none => db
  else if e.event = "Withdrawn" then
    match handle_withdraw stake (e.amount.getD 0) timestamp with
    | some row => { db with stakes := upsertStake db.stakes key row }
    | none => db
  else if e.event = "EmergencyWithdrawn" then
    match handle_emergency_withdraw stake (e.amount.getD 0) with
    | some row => { db with stakes := upsertStake db.stakes key row }
    | none => db
  else if e.event = "RewardClaimed" then
    match handle_reward_claimed stake with
    | some row => { db with stakes := upsertStake db.stakes key row }
    | none => db
  else db

/-- `IndexerService._process_event`: resolve the timestamp, append the
event-log row (always, whatever the kind), then apply the balance rule. -/
def process_event (getBlock : Nat → Except Unit Block) (now : Nat)
    (db : DB) (e : RawEvent) : DB :=
  let timestamp := resolve_timestamp getBlock now e.blockNumber
  let db₁ := { db with events := db.events ++ [mk_staking_event e timestamp] }
  dispatch_event db₁ e timestamp

/-- Process a batch's events in order. -/
def process_events (getBlock : Nat → Except Unit Block) (now : Nat)
    (db : DB) (evs : List RawEvent) : DB :=
  evs.foldl (process_event getBlock now) db

/-- The cursor write at the end of a batch
(`update(IndexerState).values(last_block_number=to_block, ...)`). -/
def set_cursor (db : DB) (to_block : Nat) : DB :=
  match db.state with
  | some _ => { db with state := some to_block }
  | none => db

/-! ## Batch indexing (`IndexerService.index_block_range`)

The method is one `try` block — fetch events, process each, write the
cursor — ended by a single `commit`; any exception rolls the session back
and re-raises.  Failures come from I/O, which the pure model cannot raise
by itself, so a fault oracle is threaded through: `fault = some k` makes
the k-th step of the batch raise (step 0 is the event fetch, steps
1..n the n events, step n+1 the cursor write, step n+2 the commit).
The pending work done before the faulting step is materialised and then
discarded by the rollback, exactly as in the source.  The `Bool` result
is success. -/

/-- `IndexerService.index_block_range` with an injected fault position. -/
def index_block_range (evs : List RawEvent)
    (getBlock : Nat → Except Unit Block) (now : Nat) (to_block : Nat)
    (fault : Option Nat) (sess : Session) : Bool × Session :=
  match fault with
  | some k =>
      if k < evs.length + 3 then
        let pending₁ := process_events getBlock now sess.pending (evs.take (k - 1))
        let pending₂ :=
          if k = evs.length + 2 then set_cursor pending₁ to_block else pending₁
        (false, Session.rollback { sess with pending := pending₂ })
      else
        let done := set_cursor (process_events getBlock now sess.pending evs) to_block
        (true, Session.commit { sess with pending := done })
  | none =>
      let done := set_cursor (process_events getBlock now sess.pending evs) to_block
      (true, Session.commit { sess with pending := done })

/-! ## Pool sync and the poll loop (`IndexerService.sync_pools`, `run`) -/

/-- The pool-table rewrite `sync_pools` performs: for each id below the
on-chain pool count, fetch the snapshot and upsert it, skipping ids whose
fetch returned nothing. -/
def sync_pools_list (poolInfo : Nat → Option PoolRow) (pool_count : Nat)
    (pools : List (Nat × PoolRow)) : List (Nat × PoolRow) :=
  (List.range pool_count).foldl
    (fun acc pid =>
      match poolInfo pid with
      | some info => upsertPool acc pid info
      | none => acc)
    pools

/-- `IndexerService.sync_pools`: rewrite the pool table in the session and
commit. -/
def sync_pools (poolInfo : Nat → Option PoolRow) (pool_count : Nat)
    (sess : Session) : Session :=
  Session.commit
    { sess with pending :=
        { sess.pending with
            pools := sync_pools_list poolInfo pool_count sess.pending.pools } }

/-- `to_block = min(current_block - 1, last_block + INDEXER_BATCH_SIZE)`
as computed in `IndexerService.run`. -/
def compute_to_block (chain_head last_block batch_size : Nat) : Nat :=
  min (chain_head - 1) (last_block + batch_size)

/-- One iteration of the `while` body of `IndexerService.run`: read the
cursor, and when the chain head has outrun it, sync pools and index the
next bounded range (the retry decorator re-runs the batch with the same
inputs, so one representative attempt is modelled; a finally-failed batch
reaches the loop's exception handler, whose rollback the batch has
already performed on its session).  The `Bool` records whether
`index_block_range` was invoked this iteration.  An absent cursor row
makes `scalar_one()` raise into the handler, leaving a rolled-back
session. -/
def run_iteration (batch_size chain_head pool_count : Nat)
    (poolInfo : Nat → Option PoolRow) (evs : List RawEvent)
    (getBlock : Nat → Except Unit Block) (now : Nat) (fault : Option Nat)
    (sess : Session) : Session × Bool :=
  match sess.pending.state with
  | none => (Session.rollback sess, false)
  | some last_block =>
      if chain_head > last_block then
        let sess₁ := sync_pools poolInfo pool_count sess
        let to_block := compute_to_block chain_head last_block batch_size
        let out := index_block_range evs getBlock now to_block fault sess₁
        (out.2, true)
      else (sess, false)

/-- `IndexerService.initialize`: create the cursor row at the configured
start block when none exists, and commit; otherwise leave everything
untouched. -/
def init_state (start_block : Nat) (sess : Session) : Session :=
  match sess.pending.state with
  | some _ => sess
  | none =>
      Session.commit
        { sess with pending := { sess.pending with state := some start_block } }

/-- Every kind of step the engine takes against the store: first-run
initialisation, one poll iteration (successful, failed, or idle according
to its parameters and fault), or the idle wait itself. -/
inductive EngineStep where
  | init (start_block : Nat)
  | poll (batch_size chain_head pool_count : Nat)
      (poolInfo : Nat → Option PoolRow) (evs : List RawEvent)
      (getBlock : Nat → Except Unit Block) (now : Nat) (fault : Option Nat)
  | idle

/-- Apply one engine step to the session. -/
def engine_apply : EngineStep → Session → Session
  | EngineStep.init sb, sess => init_state sb sess
  | EngineStep.poll bs head pc pi evs gb now f, sess =>
      (run_iteration bs head pc pi evs gb now f sess).1
  | EngineStep.idle, sess => sess

/-- The committed cursor value (0 when the row does not exist yet). -/
def cursorOf (db : DB) : Nat := db.state.getD 0

/-! ## Replay of balance rules on a single stake row

The spec's testable properties quantify over sequences of events applied
to one `Stake` row; `LEvent` is the decoded payload of one event as the
dispatcher hands it to the `_handle_*` methods. -/

/-- One decoded event aimed at a single (pool, user) key. -/
inductive LEvent where
  | staked (amount : Int) (ts : Nat)
  | withdrawn (amount : Int) (ts : Nat)
  | emergencyWithdrawn (amount : Int)
  | rewardClaimed
  deriving Repr, DecidableEq

/-- The balance-mutation rule dispatched for one event
(the `if/elif` chain of `_process_event`, restricted to the ledger
mutation). -/
def apply_rule (pool : Option PoolRow) (s : Option StakeRow) :
    LEvent → Option StakeRow
  | LEvent.staked a ts => handle_stake pool s a ts
  | LEvent.withdrawn a ts => handle_withdraw s a ts
  | LEvent.emergencyWithdrawn a => handle_emergency_withdraw s a
  | LEvent.rewardClaimed => handle_reward_claimed s

/-- Replay a sequence of events against one stake row. -/
def replay (pool : Option PoolRow) (s : Option StakeRow)
    (evs : List LEvent) : Option StakeRow :=
  evs.foldl (apply_rule pool) s

/-- Sum of the amounts of the `Staked` events of a sequence. -/
def sumStaked : List LEvent → Int
  | [] => 0
  | LEvent.staked a _ :: r => a + sumStaked r
  | _ :: r => sumStaked r

/-- Sum of the amounts of the `Withdrawn` events of a sequence. -/
def sumWithdrawn : List LEvent → Int
  | [] => 0
  | LEvent.withdrawn a _ :: r => a + sumWithdrawn r
  | _ :: r => sumWithdrawn r

/-- Whether an event is one of the two kinds (`Staked`/`Withdrawn`)
quantified over by the balance-conservation property. -/
def isSW : LEvent → Bool
  | LEvent.staked _ _ => true
  | LEvent.withdrawn _ _ => true
  | _ => false

/-- Decoded `uint256` amounts are non-negative; this is the one fact about
the chain encoding the balance lemmas use. -/
def amountNonneg : LEvent → Bool
  | LEvent.staked a _ => decide (0 ≤ a)
  | LEvent.withdrawn a _ => decide (0 ≤ a)
  | LEvent.emergencyWithdrawn a => decide (0 ≤ a)
  | LEvent.rewardClaimed => true

/-- `Staked` events carry a strictly positive amount (a zero-amount
stake is the one decoded payload the active-flag invariant does not
survive). -/
def posStaked : LEvent → Bool
  | LEvent.staked a _ => decide (0 < a)
  | _ => true

/-- The running balance, starting from `a`, never goes below zero at any
`Withdrawn` event of the sequence. -/
def noOvershootFrom (a : Int) : List LEvent → Bool
  | [] => true
  | LEvent.staked n _ :: r => noOvershootFrom (a + n) r
  | LEvent.withdrawn n _ :: r => decide (0 ≤ a - n) && noOvershootFrom (a - n) r
  | LEvent.emergencyWithdrawn _ :: r => noOvershootFrom 0 r
  | LEvent.rewardClaimed :: r => noOvershootFrom a r

/-- The numeric shadow of the replay: what each rule does to the staked
amount alone. -/
def replayAmt (a : Int) : List LEvent → Int
  | [] => a
  | LEvent.staked n _ :: r => replayAmt (a + n) r
  | LEvent.withdrawn n _ :: r => replayAmt (max 0 (a - n)) r
  | LEvent.emergencyWithdrawn _ :: r => replayAmt 0 r
  | LEvent.rewardClaimed :: r => replayAmt a r

/-- The spec's `Stake` invariant, as a decidable check on a
possibly-absent row: staked amount non-negative, and the active flag set
exactly when it is strictly positive. -/
def stake_invariant : Option StakeRow → Bool
  | none => true
  | some s => decide (0 ≤ s.staked_amount) &&
      (s.is_active == decide (0 < s.staked_amount))

/-! ## Concrete inputs used by witnesses and counterexamples -/

/-- A concrete pool row (lock duration 100 seconds). -/
def examplePool : PoolRow :=
  { staking_token := "0xstakingtoken"
    reward_token := "0xrewardtoken"
    reward_rate := 1
    lock_duration := 100
    deposit_fee := 0
    withdraw_fee := 0
    is_active := true }

/-- A concrete active stake row holding 10 units. -/
def exStake10 : StakeRow :=
  { staked_amount := 10, pending_rewards := 7, last_stake_time := 1,
    unlock_time := 2, is_active := true }

/-- A stake of 10, an overdrawing withdraw of 20, then a stake of 5:
the per-event saturation ends at 5, not at `max 0 (15 - 20) = 0`. -/
def exOvershoot : List LEvent :=
  [LEvent.staked 10 1, LEvent.withdrawn 20 2, LEvent.staked 5 3]

/-- A sequence whose running balance never goes negative. -/
def exSafe : List LEvent := [LEvent.staked 10 1, LEvent.withdrawn 4 2]

/-- Raw event at block 5, log index 1. -/
def ev51 : RawEvent :=
  { event := "RewardClaimed", transactionHash := "0xc", blockNumber := 5,
    logIndex := 1, poolId := 0, user := "0xu", amount := none,
    rewardAmount := some 3 }

/-- Raw event at block 5, log index 2. -/
def ev52 : RawEvent :=
  { event := "Staked", transactionHash := "0xa", blockNumber := 5,
    logIndex := 2, poolId := 0, user := "0xu", amount := some 10,
    rewardAmount := none }

/-- Raw event at block 7, log index 0. -/
def ev70 : RawEvent :=
  { event := "Withdrawn", transactionHash := "0xb", blockNumber := 7,
    logIndex := 0, poolId := 0, user := "0xu", amount := some 4,
    rewardAmount := some 0 }

/-- A fetch oracle returning the spec's example events — blocks {5,7,5}
with log indices {2,0,1} — spread over three kinds. -/
def exFetch : String → Except Unit (List RawEvent) := fun n =>
  if n = "Staked" then Except.ok [ev52]
  else if n = "Withdrawn" then Except.ok [ev70]
  else if n = "RewardClaimed" then Except.ok [ev51]
  else Except.ok []

/-- `exFetch` with a decode failure injected for the `Withdrawn` kind. -/
def exFetchFail : String → Except Unit (List RawEvent) := fun n =>
  if n = "Withdrawn" then Except.error () else exFetch n

/-- A concrete Staked raw event at block 101. -/
def exRawStaked : RawEvent :=
  { event := "Staked", transactionHash := "0xa1", blockNumber := 101,
    logIndex := 0, poolId := 0, user := "0xUser", amount := some 50,
    rewardAmount := none }

/-- A store holding one pool and a cursor at block 100. -/
def exDB : DB :=
  { events := [], stakes := [], pools := [(0, examplePool)], state := some 100 }

/-- A clean session over `exDB`. -/
def exSession : Session := ⟨exDB, exDB⟩

/-- A block oracle that always answers. -/
def exGetBlock : Nat → Except Unit Block := fun n => Except.ok ⟨1700000000 + n⟩

/-! ## Lemmas: what each rule does to the staked amount -/

lemma stakedAmountOf_handle_stake (p : PoolRow) (s : Option StakeRow)
    (a : Int) (ts : Nat) :
    stakedAmountOf (handle_stake (some p) s a ts) = stakedAmountOf s + a := by
  cases s <;> simp [handle_stake, stakedAmountOf]

lemma stakedAmountOf_handle_withdraw (s : Option StakeRow) (a : Int)
    (ts : Nat) (ha : 0 ≤ a) :
    stakedAmountOf (handle_withdraw s a ts) = max 0 (stakedAmountOf s - a) := by
  cases s with
  | none =>
      simp only [handle_withdraw, stakedAmountOf]
      omega
  | some s =>
      by_cases h : s.staked_amount - a ≤ 0
      · have hw : handle_withdraw (some s) a ts =
            some { s with staked_amount := 0, pending_rewards := 0,
                          is_active := false } := by
          simp [handle_withdraw, h]
        rw [hw]
        simp only [stakedAmountOf]
        omega
      · have hw : handle_withdraw (some s) a ts =
            some { s with staked_amount := s.staked_amount - a,
                          pending_rewards := 0 } := by
          simp [handle_withdraw, h]
        rw [hw]
        simp only [stakedAmountOf]
        omega

lemma stakedAmountOf_handle_emergency (s : Option StakeRow) (a : Int) :
    stakedAmountOf (handle_emergency_withdraw s a) = 0 := by
  cases s <;> simp [handle_emergency_withdraw, stakedAmountOf]

lemma stakedAmountOf_handle_reward (s : Option StakeRow) :
    stakedAmountOf (handle_reward_claimed s) = stakedAmountOf s := by
  cases s <;> simp [handle_reward_claimed, stakedAmountOf]

/-- With the pool present, the staked amount after replay depends only on
the staked amount before it, through the numeric shadow `replayAmt`. -/
lemma replay_eq_replayAmt (p : PoolRow) :
    ∀ (evs : List LEvent) (s : Option StakeRow),
    (∀ e ∈ evs, amountNonneg e = true) →
    stakedAmountOf (replay (some p) s evs) = replayAmt (stakedAmountOf s) evs := by
  intro evs
  induction evs with
  | nil => intro s _; rfl
  | cons e r ih =>
      intro s h
      have he : amountNonneg e = true := h e (List.mem_cons_self e r)
      have hr : ∀ e' ∈ r, amountNonneg e' = true :=
        fun e' he' => h e' (List.mem_cons_of_mem e he')
      cases e with
      | staked a ts =>
          show stakedAmountOf (replay (some p) (handle_stake (some p) s a ts) r) = _
          rw [ih _ hr, stakedAmountOf_handle_stake]
          rfl
      | withdrawn a ts =>
          have ha : 0 ≤ a := by simpa [amountNonneg] using he
          show stakedAmountOf (replay (some p) (handle_withdraw s a ts) r) = _
          rw [ih _ hr, stakedAmountOf_handle_withdraw _ _ _ ha]
          rfl
      | emergencyWithdrawn a =>
          show stakedAmountOf (replay (some p) (handle_emergency_withdraw s a) r) = _
          rw [ih _ hr, stakedAmountOf_handle_emergency]
          rfl
      | rewardClaimed =>
          show stakedAmountOf (replay (some p) (handle_reward_claimed s) r) = _
          rw [ih _ hr, stakedAmountOf_handle_reward]
          rfl

lemma replayAmt_nonneg :
    ∀ (evs : List LEvent) (a : Int), 0 ≤ a →
    (∀ e ∈ evs, amountNonneg e = true) → 0 ≤ replayAmt a evs := by
  intro evs
  induction evs with
  | nil => intro a ha _; exact ha
  | cons e r ih =>
      intro a ha h
      have he : amountNonneg e = true := h e (List.mem_cons_self e r)
      have hr : ∀ e' ∈ r, amountNonneg e' = true :=
        fun e' he' => h e' (List.mem_cons_of_mem e he')
      cases e with
      | staked n ts =>
          have hn : 0 ≤ n := by simpa [amountNonneg] using he
          exact ih (a + n) (by omega) hr
      | withdrawn n ts => exact ih _ (le_max_left 0 _) hr
      | emergencyWithdrawn n => exact ih 0 le_rfl hr
      | rewardClaimed => exact ih a ha hr

lemma replayAmt_le_sumStaked :
    ∀ (evs : List LEvent) (a : Int), 0 ≤ a →
    (∀ e ∈ evs, amountNonneg e = true) →
    replayAmt a evs ≤ a + sumStaked evs := by
  intro evs
  induction evs with
  | nil => intro a _ _; simp [replayAmt, sumStaked]
  | cons e r ih =>
      intro a ha h
      have he : amountNonneg e = true := h e (List.mem_cons_self e r)
      have hr : ∀ e' ∈ r, amountNonneg e' = true :=
        fun e' he' => h e' (List.mem_cons_of_mem e he')
      cases e with
      | staked n ts =>
          have hn : 0 ≤ n := by simpa [amountNonneg] using he
          have := ih (a + n) (by omega) hr
          simpa [replayAmt, sumStaked, add_assoc] using this
      | withdrawn n ts =>
          have hn : 0 ≤ n := by simpa [amountNonneg] using he
          have := ih (max 0 (a - n)) (le_max_left 0 _) hr
          simp only [replayAmt, sumStaked]
          omega
      | emergencyWithdrawn n =>
          have := ih 0 le_rfl hr
          simp only [replayAmt, sumStaked]
          omega
      | rewardClaimed =>
          have := ih a ha hr
          simpa [replayAmt, sumStaked] using this

lemma replayAmt_ge_sub :
    ∀ (evs : List LEvent) (a : Int), (∀ e ∈ evs, isSW e = true) →
    a + sumStaked evs - sumWithdrawn evs ≤ replayAmt a evs := by
  intro evs
  induction evs with
  | nil => intro a _; simp [replayAmt, sumStaked, sumWithdrawn]
  | cons e r ih =>
      intro a h
      have hr : ∀ e' ∈ r, isSW e' = true :=
        fun e' he' => h e' (List.mem_cons_of_mem e he')
      cases e with
      | staked n ts =>
          have := ih (a + n) hr
          simp only [replayAmt, sumStaked, sumWithdrawn]
          omega
      | withdrawn n ts =>
          have := ih (max 0 (a - n)) hr
          simp only [replayAmt, sumStaked, sumWithdrawn]
          omega
      | emergencyWithdrawn n =>
          exact absurd (h _ (List.mem_cons_self _ r)) (by simp [isSW])
      | rewardClaimed =>
          exact absurd (h _ (List.mem_cons_self _ r)) (by simp [isSW])

lemma replayAmt_exact :
    ∀ (evs : List LEvent) (a : Int), (∀ e ∈ evs, isSW e = true) →
    noOvershootFrom a evs = true →
    replayAmt a evs = a + sumStaked evs - sumWithdrawn evs := by
  intro evs
  induction evs with
  | nil => intro a _ _; simp [replayAmt, sumStaked, sumWithdrawn]
  | cons e r ih =>
      intro a h hno
      have hr : ∀ e' ∈ r, isSW e' = true :=
        fun e' he' => h e' (List.mem_cons_of_mem e he')
      cases e with
      | staked n ts =>
          have := ih (a + n) hr (by simpa [noOvershootFrom] using hno)
          simp only [replayAmt, sumStaked, sumWithdrawn]
          omega
      | withdrawn n ts =>
          simp only [noOvershootFrom, Bool.and_eq_true, decide_eq_true_eq] at hno
          have := ih (a - n) hr hno.2
          have hm : max 0 (a - n) = a - n := by omega
          simp only [replayAmt, sumStaked, sumWithdrawn, hm]
          omega
      | emergencyWithdrawn n =>
          exact absurd (h _ (List.mem_cons_self _ r)) (by simp [isSW])
      | rewardClaimed =>
          exact absurd (h _ (List.mem_cons_self _ r)) (by simp [isSW])

/-! ## Lemmas: event processing touches only the tables it writes -/

lemma dispatch_event_events (db : DB) (e : RawEvent) (ts : Nat) :
    (dispatch_event db e ts).events = db.events := by
  unfold dispatch_event
  dsimp only
  repeat' first | split | rfl

lemma dispatch_event_state (db : DB) (e : RawEvent) (ts : Nat) :
    (dispatch_event db e ts).state = db.state := by
  unfold dispatch_event
  dsimp only
  repeat' first | split | rfl

lemma process_event_state (gb : Nat → Except Unit Block) (now : Nat)
    (db : DB) (e : RawEvent) :
    (process_event gb now db e).state = db.state := by
  simp [process_event, dispatch_event_state]

lemma process_events_state (gb : Nat → Except Unit Block) (now : Nat) :
    ∀ (evs : List RawEvent) (db : DB),
    (process_events gb now db evs).state = db.state := by
  intro evs
  induction evs with
  | nil => intro db; rfl
  | cons e r ih =>
      intro db
      show (process_events gb now (process_event gb now db e) r).state = db.state
      rw [ih, process_event_state]

/-! ## Claim C1 -/

/-- C1 fails as stated: for the Staked/Withdrawn sequence
`[Staked 10, Withdrawn 20, Staked 5]` the replayed staked amount is 5,
while the sum of Staked amounts minus the sum of Withdrawn amounts,
floored at zero, is 0 — the code saturates at zero per withdraw, not
globally. -/
theorem C1_claim_counterexample :
    (∀ e ∈ exOvershoot, isSW e = true) ∧
    (∀ e ∈ exOvershoot, amountNonneg e = true) ∧
    stakedAmountOf (replay (some examplePool) none exOvershoot) = 5 ∧
    max 0 (sumStaked exOvershoot - sumWithdrawn exOvershoot) = 0 ∧
    stakedAmountOf (replay (some examplePool) none exOvershoot) ≠
      max 0 (sumStaked exOvershoot - sumWithdrawn exOvershoot) := by
  decide

/-- C1 (amended): for every finite sequence of Staked and Withdrawn
events applied in order to a single Stake row, the staked amount after
replay never exceeds the sum of all Staked amounts, is at least the sum
of all Staked amounts minus the sum of all Withdrawn amounts floored at
zero, and equals that floored difference whenever the running balance
never goes below zero at a Withdrawn event (it can exceed it when an
overdrawing withdraw is followed by further staking). -/
theorem C1_replay_bounds (p : PoolRow) (evs : List LEvent)
    (hsw : ∀ e ∈ evs, isSW e = true)
    (hnn : ∀ e ∈ evs, amountNonneg e = true) :
    stakedAmountOf (replay (some p) none evs) ≤ sumStaked evs ∧
    max 0 (sumStaked evs - sumWithdrawn evs) ≤
      stakedAmountOf (replay (some p) none evs) ∧
    (noOvershootFrom 0 evs = true →
      stakedAmountOf (replay (some p) none evs) =
        max 0 (sumStaked evs - sumWithdrawn evs)) := by
  have hb := replay_eq_replayAmt p evs none hnn
  have h0 : stakedAmountOf (none : Option StakeRow) = 0 := rfl
  rw [h0] at hb
  refine ⟨?_, ?_, ?_⟩
  · rw [hb]
    have := replayAmt_le_sumStaked evs 0 le_rfl hnn
    omega
  · rw [hb]
    have h₁ := replayAmt_ge_sub evs 0 hsw
    have h₂ := replayAmt_nonneg evs 0 le_rfl hnn
    omega
  · intro hno
    rw [hb]
    have h₁ := replayAmt_exact evs 0 hsw hno
    have h₂ := replayAmt_nonneg evs 0 le_rfl hnn
    omega

/-- Witness for `C1_replay_bounds` at a concrete sequence. -/
theorem C1_replay_bounds_witness :
    stakedAmountOf (replay (some examplePool) none exSafe) ≤ sumStaked exSafe ∧
    max 0 (sumStaked exSafe - sumWithdrawn exSafe) ≤
      stakedAmountOf (replay (some examplePool) none exSafe) ∧
    stakedAmountOf (replay (some examplePool) none exSafe) =
      max 0 (sumStaked exSafe - sumWithdrawn exSafe) := by
  have h := C1_replay_bounds examplePool exSafe (by decide) (by decide)
  exact ⟨h.1, h.2.1, h.2.2 (by decide)⟩

/-! ## Claim C3 -/

/-- C3: a Withdrawn event on an existing Stake row zeroes the amount and
the pending rewards and deactivates the row when the decrement would not
stay positive; otherwise it decreases the amount and resets pending
rewards (other fields untouched); the resulting staked amount is never
negative. -/
theorem C3_withdraw_rule (s : StakeRow) (a : Int) (ts : Nat) :
    (s.staked_amount - a ≤ 0 →
      handle_withdraw (some s) a ts =
        some { s with staked_amount := 0, pending_rewards := 0,
                      is_active := false }) ∧
    (0 < s.staked_amount - a →
      handle_withdraw (some s) a ts =
        some { s with staked_amount := s.staked_amount - a,
                      pending_rewards := 0 }) ∧
    0 ≤ stakedAmountOf (handle_withdraw (some s) a ts) := by
  refine ⟨?_, ?_, ?_⟩
  · intro h
    simp [handle_withdraw, h]
  · intro h
    have hn : ¬ (s.staked_amount - a ≤ 0) := by omega
    simp [handle_withdraw, hn]
  · by_cases h : s.staked_amount - a ≤ 0
    · simp [handle_withdraw, h, stakedAmountOf]
    · simp [handle_withdraw, h, stakedAmountOf]
      omega

/-- Witness for `C3_withdraw_rule`: an overdrawing withdraw (20 from 10)
zeroes and deactivates; an in-balance withdraw (4 from 10) leaves 6. -/
theorem C3_withdraw_rule_witness :
    handle_withdraw (some exStake10) 20 5 =
      some { exStake10 with staked_amount := 0, pending_rewards := 0,
                            is_active := false } ∧
    handle_withdraw (some exStake10) 4 5 =
      some { exStake10 with staked_amount := 6, pending_rewards := 0 } := by
  have h₁ := C3_withdraw_rule exStake10 20 5
  have h₂ := C3_withdraw_rule exStake10 4 5
  exact ⟨h₁.1 (by decide), h₂.2.1 (by decide)⟩

/-! ## Claim C6 -/

/-- C6 fails as stated: a Staked event for a (pool, user) pair with no
Stake row creates no row at all when the Pool row is absent — the code
only creates the row when the pool reference lookup succeeds. -/
theorem C6_claim_counterexample : handle_stake none none 5 0 = none := rfl

/-- C6 (amended): when the Pool row exists, a Staked event increases the
staked amount by the event's amount, sets last_stake_time to the event
time, sets unlock_time to the event time plus the pool's lock duration,
sets active, and creates the Stake row if none exists; when the Pool row
is absent, an existing row is still updated (with a 7-day default lock)
but no new row is created. -/
theorem C6_stake_rule (p : PoolRow) (s : Option StakeRow) (a : Int) (ts : Nat) :
    ∃ row : StakeRow,
      handle_stake (some p) s a ts = some row ∧
      row.staked_amount = stakedAmountOf s + a ∧
      row.last_stake_time = ts ∧
      row.unlock_time = ts + p.lock_duration ∧
      row.is_active = true := by
  cases s with
  | none => exact ⟨_, rfl, by simp [handle_stake, stakedAmountOf], rfl, rfl, rfl⟩
  | some srow => exact ⟨_, rfl, by simp [handle_stake, stakedAmountOf], rfl, rfl, rfl⟩

/-! ## Claim C8 -/

/-- C8 fails as stated: a zero-amount Staked event on an absent row
(invariant holds trivially before) produces a row with staked amount 0
and active set, breaking "active iff staked amount > 0". -/
theorem C8_claim_counterexample :
    stake_invariant none = true ∧
    stake_invariant (apply_rule (some examplePool) none (LEvent.staked 0 0)) = false := by
  decide

/-- C8 (amended): every balance-mutation rule preserves the Stake
invariant (staked amount ≥ 0 and active iff staked amount > 0) provided
event amounts are non-negative and Staked amounts are strictly
positive. -/
theorem C8_invariant_preserved (pool : Option PoolRow) (s : Option StakeRow)
    (ev : LEvent) (hinv : stake_invariant s = true)
    (hnn : amountNonneg ev = true) (hpos : posStaked ev = true) :
    stake_invariant (apply_rule pool s ev) = true := by
  cases ev with
  | staked a ts =>
      have ha : 0 < a := by simpa [posStaked] using hpos
      cases s with
      | none =>
          cases pool with
          | none => rfl
          | some p =>
              simp only [apply_rule, handle_stake, stake_invariant,
                Bool.and_eq_true, decide_eq_true_eq, beq_iff_eq]
              constructor
              · omega
              · have : (0 : Int) < a := ha
                simp [this]
      | some srow =>
          simp only [stake_invariant, Bool.and_eq_true, decide_eq_true_eq,
            beq_iff_eq] at hinv
          simp only [apply_rule, handle_stake, stake_invariant,
            Bool.and_eq_true, decide_eq_true_eq, beq_iff_eq]
          constructor
          · omega
          · have : (0 : Int) < srow.staked_amount + a := by omega
            simp [this]
  | withdrawn a ts =>
      have ha : 0 ≤ a := by simpa [amountNonneg] using hnn
      cases s with
      | none => rfl
      | some srow =>
          simp only [stake_invariant, Bool.and_eq_true, decide_eq_true_eq,
            beq_iff_eq] at hinv
          by_cases hc : srow.staked_amount - a ≤ 0
          · have hw : handle_withdraw (some srow) a ts =
                some { srow with staked_amount := 0, pending_rewards := 0,
                                 is_active := false } := by
              simp [handle_withdraw, hc]
            show stake_invariant (handle_withdraw (some srow) a ts) = true
            rw [hw]
            simp [stake_invariant]
          · have hw : handle_withdraw (some srow) a ts =
                some { srow with staked_amount := srow.staked_amount - a,
                                 pending_rewards := 0 } := by
              simp [handle_withdraw, hc]
            show stake_invariant (handle_withdraw (some srow) a ts) = true
            rw [hw]
            simp only [stake_invariant, Bool.and_eq_true, decide_eq_true_eq,
              beq_iff_eq]
            constructor
            · omega
            · rw [hinv.2]
              have hiff : (0 < srow.staked_amount) ↔
                  (0 < srow.staked_amount - a) := by omega
              simp [decide_eq_decide.mpr hiff]
  | emergencyWithdrawn a =>
      cases s with
      | none => rfl
      | some srow =>
          show stake_invariant (handle_emergency_withdraw (some srow) a) = true
          simp [handle_emergency_withdraw, stake_invariant]
  | rewardClaimed =>
      cases s with
      | none => rfl
      | some srow =>
          show stake_invariant (handle_reward_claimed (some srow)) = true
          simp only [stake_invariant, Bool.and_eq_true, decide_eq_true_eq,
            beq_iff_eq] at hinv
          simp [handle_reward_claimed, stake_invariant, hinv.1, hinv.2]

/-- Witness for `C8_invariant_preserved` at a concrete rule application. -/
theorem C8_invariant_preserved_witness :
    stake_invariant
      (apply_rule (some examplePool) (some exStake10) (LEvent.staked 3 9)) = true :=
  C8_invariant_preserved (some examplePool) (some exStake10) (LEvent.staked 3 9)
    (by decide) (by decide) (by decide)

/-! ## Claim C4 -/

/-- The sort key comparison is transitive. -/
lemma eventKeyLE_trans (a b c : RawEvent) (h₁ : eventKeyLE a b)
    (h₂ : eventKeyLE b c) : eventKeyLE a c := by
  simp only [eventKeyLE, decide_eq_true_eq] at h₁ h₂ ⊢
  omega

/-- The sort key comparison is total. -/
lemma eventKeyLE_total (a b : RawEvent) : eventKeyLE a b || eventKeyLE b a := by
  simp only [eventKeyLE, Bool.or_eq_true, decide_eq_true_eq]
  omega

unseal List.merge List.mergeSort in
/-- C4: for every fetch oracle, `get_all_events` returns a permutation of
the union of the four event kinds, sorted ascending by
`(block_number, log_index)`; for the spec's example — events from blocks
{5,7,5} with log indices {2,0,1} — it yields the order
(block 5, log 1), (block 5, log 2), (block 7, log 0). -/
theorem C4_get_all_events_ordered :
    (∀ fetch : String → Except Unit (List RawEvent),
      ((get_all_events fetch).1).Pairwise (fun a b => eventKeyLE a b = true) ∧
      ((get_all_events fetch).1).Perm
        (get_events fetch "Staked" ++ get_events fetch "Withdrawn" ++
         get_events fetch "RewardClaimed" ++ get_events fetch "EmergencyWithdrawn")) ∧
    (get_all_events exFetch).1 = [ev51, ev52, ev70] := by
  constructor
  · intro fetch
    constructor
    · exact List.sorted_mergeSort eventKeyLE_trans eventKeyLE_total _
    · exact (List.mergeSort_perm _ _).trans
        (List.Perm.of_eq (by simp [get_all_events, event_names, List.append_assoc]))
  · rfl

/-! ## Claim C7 -/

/-- C7: a decode/call failure confined to one event kind makes that
kind's contribution empty while `get_all_events` still returns exactly
what it would return had that kind yielded no events — the other three
kinds' events, ordered; the call returns normally and fetches each kind
exactly once (no abort, no per-kind retry). -/
theorem C7_kind_failure_isolated (fetch : String → Except Unit (List RawEvent))
    (k : String) (hk : fetch k = Except.error ()) :
    (get_all_events fetch).1 =
      (get_all_events (fun n => if n = k then Except.ok [] else fetch n)).1 ∧
    (get_all_events fetch).2 = event_names := by
  have hev : ∀ n, get_events (fun n' => if n' = k then Except.ok [] else fetch n') n
      = get_events fetch n := by
    intro n
    by_cases h : n = k
    · subst h; simp [get_events, hk]
    · simp [get_events, h]
  constructor
  · simp only [get_all_events, event_names, List.foldl_cons, List.foldl_nil, hev]
  · rfl

/-- Witness for `C7_kind_failure_isolated`: the `Withdrawn` kind fails to
decode, the other kinds' events are still returned in order. -/
theorem C7_kind_failure_isolated_witness :
    (get_all_events exFetchFail).1 =
      (get_all_events (fun n => if n = "Withdrawn" then Except.ok []
        else exFetchFail n)).1 ∧
    (get_all_events exFetchFail).2 = event_names :=
  C7_kind_failure_isolated exFetchFail "Withdrawn" rfl

/-! ## Claim C2 -/

/-- C2: `index_block_range` is atomic: starting from a clean session, a
fault at any step before or at the commit makes the run fail with the
committed store — event log, stake rows, cursor — exactly as before the
call, and re-running the batch without a fault from the failed session
ends in the same state as a single successful run from the original
session. -/
theorem C2_index_block_range_atomic (evs : List RawEvent)
    (getBlock : Nat → Except Unit Block) (now to_block k : Nat)
    (sess : Session) (hclean : sess.pending = sess.committed)
    (hk : k < evs.length + 3) :
    (index_block_range evs getBlock now to_block (some k) sess).1 = false ∧
    ((index_block_range evs getBlock now to_block (some k) sess).2).committed =
      sess.committed ∧
    index_block_range evs getBlock now to_block none
        ((index_block_range evs getBlock now to_block (some k) sess).2) =
      index_block_range evs getBlock now to_block none sess := by
  refine ⟨?_, ?_, ?_⟩
  · simp [index_block_range, hk]
  · simp [index_block_range, hk, Session.rollback]
  · simp [index_block_range, hk, Session.rollback, Session.commit, hclean]

/-- Witness for `C2_index_block_range_atomic`: one event, a fault at the
first event's processing step. -/
theorem C2_index_block_range_atomic_witness :
    (index_block_range [exRawStaked] exGetBlock 1234 150 (some 1) exSession).1 =
      false ∧
    ((index_block_range [exRawStaked] exGetBlock 1234 150 (some 1)
        exSession).2).committed = exSession.committed ∧
    index_block_range [exRawStaked] exGetBlock 1234 150 none
        ((index_block_range [exRawStaked] exGetBlock 1234 150 (some 1)
          exSession).2) =
      index_block_range [exRawStaked] exGetBlock 1234 150 none exSession :=
  C2_index_block_range_atomic [exRawStaked] exGetBlock 1234 150 1 exSession rfl
    (by decide)

/-! ## Claim C10 -/

/-- C10: when fetching the block for an event's block number fails, the
event is still processed — its `StakingEvent` row is appended, with the
current wall-clock time as its timestamp — and the whole processing step
behaves exactly as with an always-failing block oracle; for a `Staked`
event the same wall-clock value is the event time handed to the stake
rule (hence `last_stake_time` and `unlock_time` derive from it). -/
theorem C10_block_fetch_fallback (db : DB) (e : RawEvent) (now : Nat)
    (getBlock : Nat → Except Unit Block)
    (hfail : getBlock e.blockNumber = Except.error ()) :
    (process_event getBlock now db e).events =
      db.events ++ [mk_staking_event e now] ∧
    process_event getBlock now db e =
      process_event (fun _ => Except.error ()) now db e ∧
    (e.event = "Staked" →
      (process_event getBlock now db e).stakes =
        (match handle_stake (lookupPool db.pools e.poolId)
            (lookupStake db.stakes (e.poolId, e.user.toLower))
            (e.amount.getD 0) now with
         | some row => upsertStake db.stakes (e.poolId, e.user.toLower) row
         | none => db.stakes)) := by
  have hts : resolve_timestamp getBlock now e.blockNumber = now := by
    simp [resolve_timestamp, hfail]
  refine ⟨?_, ?_, ?_⟩
  · simp [process_event, hts, dispatch_event_events]
  · simp [process_event, resolve_timestamp, hfail]
  · intro hs
    simp only [process_event, hts, dispatch_event, hs, if_pos]
    split <;> rfl

/-- Witness for `C10_block_fetch_fallback` at a concrete Staked event and
an always-failing block oracle. -/
theorem C10_block_fetch_fallback_witness :
    (process_event (fun _ => Except.error ()) 1234 exDB exRawStaked).events =
      exDB.events ++ [mk_staking_event exRawStaked 1234] ∧
    process_event (fun _ => Except.error ()) 1234 exDB exRawStaked =
      process_event (fun _ => Except.error ()) 1234 exDB exRawStaked ∧
    (exRawStaked.event = "Staked" →
      (process_event (fun _ => Except.error ()) 1234 exDB exRawStaked).stakes =
        (match handle_stake (lookupPool exDB.pools exRawStaked.poolId)
            (lookupStake exDB.stakes
              (exRawStaked.poolId, exRawStaked.user.toLower))
            (exRawStaked.amount.getD 0) 1234 with
         | some row =>
            upsertStake exDB.stakes
              (exRawStaked.poolId, exRawStaked.user.toLower) row
         | none => exDB.stakes)) :=
  C10_block_fetch_fallback exDB exRawStaked 1234 (fun _ => Except.error ()) rfl

/-! ## Claim C5 -/

/-- C5 fails as stated: with the cursor at 100 and the chain head at 101,
the computed `to_block` is `min(100, 150) = 100`, which is not greater
than the cursor — yet the loop body, whose guard is
`chain_head > last_processed`, still invokes `index_block_range`. -/
theorem C5_claim_counterexample :
    (run_iteration 50 101 0 (fun _ => none) [] exGetBlock 0 none
      exSession).2 = true ∧
    compute_to_block 101 100 50 = 100 ∧
    ¬ compute_to_block 101 100 50 > 100 := by
  refine ⟨rfl, rfl, by decide⟩

/-- C5 (amended): each poll iteration computes
`to_block = min(chain_head - 1, last_processed + batch_size)` and
attempts a batch exactly when `chain_head > last_processed` (so a batch
with `to_block = last_processed` is still attempted when the head is one
block ahead); in the concrete case `last_processed = 100`,
`chain_head = 250`, `batch_size = 50`, the computed `to_block` is 150 and
the committed cursor after the batch reads exactly 150. -/
theorem C5_to_block_and_cursor :
    (∀ (bs head pc : Nat) (pinf : Nat → Option PoolRow)
       (evs : List RawEvent) (gb : Nat → Except Unit Block) (now : Nat)
       (f : Option Nat) (sess : Session) (last : Nat),
       sess.pending.state = some last →
       ((run_iteration bs head pc pinf evs gb now f sess).2 = true ↔
         head > last)) ∧
    compute_to_block 250 100 50 = 150 ∧
    cursorOf ((run_iteration 50 250 0 (fun _ => none) [] exGetBlock 0 none
        exSession).1).committed = 150 := by
  refine ⟨?_, rfl, rfl⟩
  intro bs head pc pinf evs gb now f sess last hstate
  unfold run_iteration
  rw [hstate]
  by_cases h : head > last
  · simp [h]
  · simp [h]

/-- Witness for `C5_to_block_and_cursor` at the concrete poll state. -/
theorem C5_to_block_and_cursor_witness :
    (run_iteration 50 250 0 (fun _ => none) [] exGetBlock 0 none
      exSession).2 = true ↔ 250 > 100 :=
  C5_to_block_and_cursor.1 50 250 0 (fun _ => none) [] exGetBlock 0 none
    exSession 100 rfl

/-! ## Claim C9 -/

/-- After a batch, whatever the fault, the committed cursor is either
untouched (rollback) or set to the batch's `to_block` (commit). -/
lemma index_block_range_committed_state (evs : List RawEvent)
    (gb : Nat → Except Unit Block) (now tb : Nat) (f : Option Nat)
    (sess : Session) (l : Nat) (h : sess.pending.state = some l) :
    ((index_block_range evs gb now tb f sess).2).committed.state =
        sess.committed.state ∨
    ((index_block_range evs gb now tb f sess).2).committed.state = some tb := by
  cases f with
  | none =>
      right
      simp [index_block_range, Session.commit, set_cursor,
        process_events_state, h]
  | some k =>
      by_cases hk : k < evs.length + 3
      · left
        simp [index_block_range, hk, Session.rollback]
      · right
        simp [index_block_range, hk, Session.commit, set_cursor,
          process_events_state, h]

/-- In a poll iteration whose chain head has outrun the cursor, the
resulting session is the batch's, run after the pool sync with
`to_block = min(chain_head - 1, last + batch_size)`. -/
lemma run_iteration_eq_batch (bs head pc : Nat)
    (pinf : Nat → Option PoolRow) (evs : List RawEvent)
    (gb : Nat → Except Unit Block) (now : Nat) (f : Option Nat)
    (sess : Session) (l : Nat) (hstate : sess.pending.state = some l)
    (hgt : head > l) :
    (run_iteration bs head pc pinf evs gb now f sess).1 =
      (index_block_range evs gb now (compute_to_block head l bs) f
        (sync_pools pinf pc sess)).2 := by
  unfold run_iteration
  rw [hstate]
  simp [hgt]

/-- C9: under every step the engine can take against a clean session —
initialisation, a poll iteration (with a successful, failed, or empty
batch), or an idle wait — the committed last-processed block number never
decreases. -/
theorem C9_cursor_monotone (step : EngineStep) (sess : Session)
    (hclean : sess.pending = sess.committed) :
    cursorOf sess.committed ≤ cursorOf ((engine_apply step sess).committed) := by
  cases step with
  | init sb =>
      show cursorOf sess.committed ≤ cursorOf ((init_state sb sess).committed)
      unfold init_state
      cases hstate : sess.pending.state with
      | none =>
          have hc : sess.committed.state = none := by rw [← hclean, hstate]
          simp [Session.commit, cursorOf, hc]
      | some n => exact le_rfl
  | poll bs head pc pinf evs gb now f =>
      show cursorOf sess.committed ≤
        cursorOf (((run_iteration bs head pc pinf evs gb now f sess).1).committed)
      cases hstate : sess.pending.state with
      | none =>
          have : (run_iteration bs head pc pinf evs gb now f sess).1 =
              Session.rollback sess := by
            unfold run_iteration
            rw [hstate]
          rw [this]
          exact le_rfl
      | some last =>
          have hcs : sess.committed.state = some last := by
            rw [← hclean]; exact hstate
          by_cases hgt : head > last
          · rw [run_iteration_eq_batch bs head pc pinf evs gb now f sess last
              hstate hgt]
            have hs₁ : (sync_pools pinf pc sess).committed.state = some last := by
              simp [sync_pools, Session.commit, hstate]
            have hs₂ : (sync_pools pinf pc sess).pending.state = some last := by
              simp [sync_pools, Session.commit, hstate]
            have htb_ge : last ≤ compute_to_block head last bs := by
              simp only [compute_to_block]
              omega
            rcases index_block_range_committed_state evs gb now
                (compute_to_block head last bs) f (sync_pools pinf pc sess)
                last hs₂ with h | h
            · rw [cursorOf, cursorOf, h, hs₁, hcs]
            · rw [cursorOf, cursorOf, h, hcs]
              simpa using htb_ge
          · have : (run_iteration bs head pc pinf evs gb now f sess).1 = sess := by
              unfold run_iteration
              rw [hstate]
              simp [hgt]
            rw [this]
  | idle => exact le_rfl

/-- Witness for `C9_cursor_monotone` at a concrete successful poll. -/
theorem C9_cursor_monotone_witness :
    cursorOf exSession.committed ≤
      cursorOf ((engine_apply
        (EngineStep.poll 50 250 0 (fun _ => none) [] exGetBlock 0 none)
        exSession).committed) :=
  C9_cursor_monotone
    (EngineStep.poll 50 250 0 (fun _ => none) [] exGetBlock 0 none)
    exSession rfl

end StakeFlow
